import Mathlib

/-!
Shallow embedding of the business-form admin panel's analytics logic.

Numbers coming from JavaScript are modelled as rationals (`ℚ`) so that the
percentage and average computations are exact; integer cell values in the CSV
export are modelled as `Int`.  Optional record fields (`timeSpent?`,
`exitReason?`, the defensively-read `currentStep`) are modelled as `Option`.
JavaScript truthiness tests on numbers (`if (x)`, `x || 0`) treat `0` like a
missing value; the embedding makes those tests explicit.
-/

namespace FormAdmin

/-- Action tag of a step event (`'enter' | 'answer' | 'exit'` in
`types/analytics.ts`). -/
inductive Action where
  | enter
  | answer
  | exit
deriving DecidableEq

/-- Exit reason of a session (`'abandoned' | 'completed' | 'ineligible'`). -/
inductive ExitReason where
  | completed
  | abandoned
  | ineligible
deriving DecidableEq

/-- `StepAnalytics` record from `types/analytics.ts` (the Firestore document
shape, without the store-managed `id`/`createdAt` fields).  `answer` payloads
are modelled as strings. -/
structure StepAnalytics where
  sessionId : String
  step : Int
  stepName : String
  action : Action
  answer : Option String
  timeSpent : Option ℚ
  exitReason : Option ExitReason
deriving DecidableEq

/-- `UserSession` record from `types/analytics.ts`.  `currentStep` is an
`Option` because `getAnalyticsSummary` defensively checks it against
`undefined`, and `timeSpent` is an `Option` because the summary reads it as
`session.timeSpent || 0`. -/
structure UserSession where
  sessionId : String
  timestamp : String
  userAgent : String
  currentStep : Option Int
  formData : List (String × String)
  timeSpent : Option ℚ
  exitReason : Option ExitReason
deriving DecidableEq

/-- `AnalyticsSummary` from `types/analytics.ts`; `dropOffByStep` (a JS object
keyed by step number) is modelled as an association list. -/
structure AnalyticsSummary where
  totalSessions : Nat
  completedSessions : Nat
  abandonedSessions : Nat
  averageTimeSpent : ℚ
  conversionRate : ℚ
  dropOffByStep : List (Int × Nat)
deriving DecidableEq

/-- `StepStats` from `types/analytics.ts`. -/
structure StepStats where
  stepNumber : Int
  stepName : String
  entrances : Nat
  exits : Nat
  averageTimeSpent : ℚ
  dropOffRate : ℚ
deriving DecidableEq

/-! ### adminUtils.ts : formatTime, rates -/

/-- `formatTime` from `adminUtils.ts`, on non-negative whole seconds.
`Math.floor(s / 60)` and `s % 60` coincide with `Nat` division/modulus. -/
def formatTime (seconds : Nat) : String :=
  if seconds < 60 then
    toString seconds ++ "s"
  else
    let minutes := seconds / 60
    let remainingSeconds := seconds % 60
    if minutes < 60 then
      toString minutes ++ "m " ++ toString remainingSeconds ++ "s"
    else
      let hours := minutes / 60
      let remainingMinutes := minutes % 60
      toString hours ++ "h " ++ toString remainingMinutes ++ "m"

/-- `getConversionRate` from `adminUtils.ts`. -/
def getConversionRate (completed total : ℚ) : ℚ :=
  if total = 0 then 0 else completed / total * 100

/-- `getDropOffRate` from `adminUtils.ts`. -/
def getDropOffRate (exits entrances : ℚ) : ℚ :=
  if entrances = 0 then 0 else exits / entrances * 100

/-! ### adminUtils.ts : exportToCSV -/

/-- A JavaScript cell value in an exported row: the export escapes values of
type string and passes other values (numbers, here) through to `join`. -/
inductive JSValue where
  | str (s : String)
  | num (n : Int)
deriving DecidableEq

/-- A row object: ordered key/value pairs (JS object insertion order). -/
abbrev Row : Type := List (String × JSValue)

/-- `row[header]` lookup: `none` models `undefined`. -/
def rowLookup (row : Row) (k : String) : Option JSValue :=
  (List.find? (fun p => p.1 = k) row).map Prod.snd

/-- `value.replace(/"/g, '""')`: every double quote is doubled. -/
def escQuotes : List Char → List Char
  | [] => []
  | c :: cs => if c = '"' then '"' :: '"' :: escQuotes cs else c :: escQuotes cs

/-- String version of `escQuotes`. -/
def escQuotesStr (s : String) : String :=
  ⟨escQuotes s.data⟩

/-- One mapped cell of the export: strings containing a comma or a double
quote are wrapped in quotes with internal quotes doubled, other values are
passed through (`Array.join` renders `undefined` as the empty string). -/
def renderCell : Option JSValue → String
  | some (JSValue.str s) =>
      if s.data.any (fun c => c = ',' || c = '"') then
        "\"" ++ escQuotesStr s ++ "\""
      else s
  | some (JSValue.num n) => toString n
  | none => ""

/-- `Array.prototype.join(sep)` on a list of strings. -/
def joinSep (sep : String) : List String → String
  | [] => ""
  | [a] => a
  | a :: b :: t => a ++ sep ++ joinSep sep (b :: t)

/-- The `csvContent` string built by `exportToCSV` in `adminUtils.ts`;
`none` models the early `return` on empty data. -/
def csvContent (data : List Row) : Option String :=
  match data with
  | [] => none
  | first :: _ =>
      let headers := first.map Prod.fst
      some (joinSep "\n"
        (joinSep "," headers ::
          data.map (fun row =>
            joinSep "," (headers.map (fun header => renderCell (rowLookup row header))))))

/-- The download triggered by `exportToCSV`: content plus the date-suffixed
filename.  `today` stands for `format(new Date(), 'yyyy-MM-dd')`. -/
structure Download where
  content : String
  filename : String
deriving DecidableEq

/-- `exportToCSV` from `adminUtils.ts`: `none` when `data.length === 0`
(no CSV text, no download), otherwise the blob content and filename. -/
def exportToCSV (data : List Row) (filename : String) (today : String) : Option Download :=
  (csvContent data).map (fun c => ⟨c, filename ++ "-" ++ today ++ ".csv"⟩)

/-! ### user-agent classification (adminUtils.ts and sessions page) -/

/-- Device classification result. -/
inductive DeviceType where
  | desktop
  | mobile
  | tablet
deriving DecidableEq

/-- Result record of both `parseUserAgent` functions. -/
structure UAInfo where
  deviceType : DeviceType
  browser : String
  os : String
deriving DecidableEq

/-- Is `p` a leading segment of `l`? -/
def isPrefixOfList : List Char → List Char → Bool
  | [], _ => true
  | _ :: _, [] => false
  | p :: ps, c :: cs => p == c && isPrefixOfList ps cs

/-- Does `pat` occur contiguously inside the second list? -/
def containsSubList (pat : List Char) : List Char → Bool
  | [] => isPrefixOfList pat []
  | c :: cs => isPrefixOfList pat (c :: cs) || containsSubList pat cs

/-- Case-sensitive `String.prototype.includes`. -/
def containsCS (s pat : String) : Bool :=
  containsSubList pat.data s.data

/-- Case-insensitive regex test such as `/Mobile|Android|iPhone|iPad/i.test`,
one alternative at a time. -/
def containsCI (s pat : String) : Bool :=
  containsSubList pat.toLower.data s.toLower.data

/-- `/Mobile|Android|iPhone|iPad/i.test(userAgent)` — shared by both parsers. -/
def testMobile (ua : String) : Bool :=
  containsCI ua "Mobile" || containsCI ua "Android" || containsCI ua "iPhone" || containsCI ua "iPad"

/-- `/iPad|Tablet/i.test(userAgent)` — shared by both parsers. -/
def testTablet (ua : String) : Bool :=
  containsCI ua "iPad" || containsCI ua "Tablet"

/-- `parseUserAgent` from `adminUtils.ts`. -/
def parseUserAgentAdmin (ua : String) : UAInfo :=
  let isMobile := testMobile ua
  let isTablet := testTablet ua
  let deviceType :=
    if isTablet then DeviceType.tablet
    else if isMobile then DeviceType.mobile
    else DeviceType.desktop
  let browser :=
    if containsCS ua "Chrome" then "Chrome"
    else if containsCS ua "Firefox" then "Firefox"
    else if containsCS ua "Safari" && !containsCS ua "Chrome" then "Safari"
    else if containsCS ua "Edge" then "Edge"
    else if containsCS ua "Opera" then "Opera"
    else "Unknown"
  let os :=
    if containsCS ua "Windows NT 10" then "Windows 10"
    else if containsCS ua "Windows NT 6.3" then "Windows 8.1"
    else if containsCS ua "Windows NT 6.1" then "Windows 7"
    else if containsCS ua "Windows" then "Windows"
    else if containsCS ua "Mac OS X" then "macOS"
    else if containsCS ua "Linux" then "Linux"
    else if containsCS ua "Android" then "Android"
    else if containsCS ua "iPhone OS" || containsCS ua "iOS" then "iOS"
    else "Unknown"
  ⟨deviceType, browser, os⟩

/-- The local `parseUserAgent` from `admin/sessions/page.tsx`. -/
def parseUserAgentSessions (ua : String) : UAInfo :=
  let isMobile := testMobile ua
  let isTablet := testTablet ua
  let deviceType :=
    if isTablet then DeviceType.tablet
    else if isMobile then DeviceType.mobile
    else DeviceType.desktop
  let browser :=
    if containsCS ua "Chrome" then "Chrome"
    else if containsCS ua "Firefox" then "Firefox"
    else if containsCS ua "Safari" then "Safari"
    else if containsCS ua "Edge" then "Edge"
    else "Unknown"
  let os :=
    if containsCS ua "Windows" then "Windows"
    else if containsCS ua "Mac" then "macOS"
    else if containsCS ua "Linux" then "Linux"
    else if containsCS ua "Android" then "Android"
    else if containsCS ua "iOS" then "iOS"
    else "Unknown"
  ⟨deviceType, browser, os⟩

/-! ### Session Recorder (utils/analytics.ts, class FormAnalytics)

The recorder's store writes are asynchronous Firestore calls; each call's
outcome is passed in as an `Except DBError _` oracle argument.  A thrown
exception is an `Except.error` result of the whole operation, and a
`try / catch` that only logs maps `error` back to `ok`. -/

/-- A store write failure. -/
inductive DBError where
  | failure
deriving DecidableEq

/-- Mutable fields of a `FormAnalytics` instance. -/
structure RecorderState where
  sessionId : String
  startTime : Int
  stepStartTime : Int
  currentStep : Int
  sessionDocId : Option String
deriving DecidableEq

/-- `Math.round(ms / 1000)` on an integer count of milliseconds:
`Math.round x = ⌊x + 1/2⌋`, so this is `⌊(2 ms + 1000) / 2000⌋`. -/
def jsRoundDiv1000 (ms : Int) : Int :=
  (2 * ms + 1000).fdiv 2000

/-- `initializeSession`: attempts the `addDoc` write (`w`); on success stores
the document id, on failure logs and continues.  Never an `Except.error`. -/
def initializeSession (st : RecorderState) (w : Except DBError String) :
    Except DBError RecorderState :=
  match w with
  | Except.ok docId => Except.ok { st with sessionDocId := some docId }
  | Except.error _ => Except.ok st

/-- `trackStepEnter`: updates `currentStep` and the step timer, then attempts
the `addDoc` write of an `enter` event; a failed write is only logged
(the event is lost, `none`). -/
def trackStepEnter (st : RecorderState) (step : Int) (stepName : String) (now : Int)
    (w : Except DBError String) :
    Except DBError (RecorderState × Option StepAnalytics) :=
  let st1 := { st with currentStep := step, stepStartTime := now }
  let ev : StepAnalytics :=
    ⟨st.sessionId, step, stepName, Action.enter, none, none, none⟩
  match w with
  | Except.ok _ => Except.ok (st1, some ev)
  | Except.error _ => Except.ok (st1, none)

/-- `trackStepAnswer`: computes the elapsed step time and attempts the
`addDoc` write of an `answer` event; a failed write is only logged. -/
def trackStepAnswer (st : RecorderState) (step : Int) (stepName : String)
    (answer : String) (now : Int) (w : Except DBError String) :
    Except DBError (RecorderState × Option StepAnalytics) :=
  let timeSpent : ℚ := (jsRoundDiv1000 (now - st.stepStartTime) : ℚ)
  let ev : StepAnalytics :=
    ⟨st.sessionId, step, stepName, Action.answer, some answer, some timeSpent, none⟩
  match w with
  | Except.ok _ => Except.ok (st, some ev)
  | Except.error _ => Except.ok (st, none)

/-- `updateSession`: returns early (with a logged error) when no session
document id is available, otherwise attempts the `updateDoc` write (`w`),
logging and swallowing any failure. -/
def updateSession (st : RecorderState) (w : Except DBError Unit) :
    Except DBError Unit :=
  match st.sessionDocId with
  | none => Except.ok ()
  | some _ =>
      match w with
      | Except.ok _ => Except.ok ()
      | Except.error _ => Except.ok ()

/-- `trackStepExit`: attempts the `addDoc` write of the `exit` event (`w1`,
caught and logged on failure), then awaits `updateSession` with the session
update write (`w2`). -/
def trackStepExit (st : RecorderState) (step : Int) (stepName : String)
    (reason : ExitReason) (now : Int) (w1 : Except DBError String)
    (w2 : Except DBError Unit) :
    Except DBError (Option StepAnalytics) :=
  let stepTimeSpent : ℚ := (jsRoundDiv1000 (now - st.stepStartTime) : ℚ)
  let ev : StepAnalytics :=
    ⟨st.sessionId, step, stepName, Action.exit, none, some stepTimeSpent, some reason⟩
  let written := match w1 with
    | Except.ok _ => some ev
    | Except.error _ => none
  match updateSession st w2 with
  | Except.ok _ => Except.ok written
  | Except.error e => Except.error e

/-- `updateFormData`: delegates to `updateSession`. -/
def updateFormData (st : RecorderState) (formData : List (String × String))
    (w : Except DBError Unit) : Except DBError Unit :=
  updateSession st w

/-! ### Query Layer : getAnalyticsSummary (analyticsQueries.ts) -/

/-- `dropOffByStep[step] = (dropOffByStep[step] || 0) + 1` on the association
list model of the JS object. -/
def bumpStep : List (Int × Nat) → Int → List (Int × Nat)
  | [], s => [(s, 1)]
  | (k, n) :: rest, s =>
      if k = s then (k, n + 1) :: rest else (k, n) :: bumpStep rest s

/-- The aggregation pass of `AnalyticsQueries.getAnalyticsSummary`, applied to
the fetched list of sessions. -/
def getAnalyticsSummary (sessions : List UserSession) : AnalyticsSummary :=
  let totalSessions := sessions.length
  let completedSessions :=
    (sessions.filter (fun s => s.exitReason = some ExitReason.completed)).length
  let abandonedSessions :=
    (sessions.filter (fun s => s.exitReason = some ExitReason.abandoned)).length
  let totalTimeSpent : ℚ := (sessions.map (fun s => s.timeSpent.getD 0)).sum
  let averageTimeSpent : ℚ :=
    if totalSessions > 0 then totalTimeSpent / (totalSessions : ℚ) else 0
  let conversionRate : ℚ :=
    if totalSessions > 0 then ((completedSessions : ℚ) / (totalSessions : ℚ)) * 100 else 0
  let dropOffByStep :=
    sessions.foldl (fun m s =>
      match s.exitReason, s.currentStep with
      | some ExitReason.abandoned, some c => bumpStep m c
      | _, _ => m) []
  ⟨totalSessions, completedSessions, abandonedSessions,
    averageTimeSpent, conversionRate, dropOffByStep⟩

/-! ### Query Layer : getStepStats (analyticsQueries.ts) -/

/-- JS truthiness of `analytics.timeSpent`: a missing value and `0` are both
falsy. -/
def tsTruthy : Option ℚ → Bool
  | some v => v ≠ 0
  | none => false

/-- Numeric value of an optional `timeSpent` (only read when truthy). -/
def tsVal : Option ℚ → ℚ
  | some v => v
  | none => 0

/-- The per-step accumulator object created inside `getStepStats`. -/
structure StepAcc where
  stepNumber : Int
  stepName : String
  entrances : Nat
  exits : Nat
  totalTimeSpent : ℚ
  timeSpentCount : Nat
deriving DecidableEq

/-- Freshly created accumulator for a step (fields start at zero; `stepName`
is taken from the first event seen for that step). -/
def initAcc (e : StepAnalytics) : StepAcc :=
  ⟨e.step, e.stepName, 0, 0, 0, 0⟩

/-- The body of the `forEach` in `getStepStats`, applied to the accumulator of
the event's step. -/
def updateAcc (a : StepAcc) (e : StepAnalytics) : StepAcc :=
  let a1 :=
    if e.action = Action.enter then { a with entrances := a.entrances + 1 }
    else if e.action = Action.exit then { a with exits := a.exits + 1 }
    else a
  if tsTruthy e.timeSpent then
    { a1 with totalTimeSpent := a1.totalTimeSpent + tsVal e.timeSpent,
              timeSpentCount := a1.timeSpentCount + 1 }
  else a1

/-- Processing one event into the keyed accumulator collection (the JS object
`stepData`, modelled as an association list in key-creation order). -/
def insertEvent : List StepAcc → StepAnalytics → List StepAcc
  | [], e => [updateAcc (initAcc e) e]
  | a :: rest, e =>
      if a.stepNumber = e.step then updateAcc a e :: rest
      else a :: insertEvent rest e

/-- The fully accumulated `stepData` collection. -/
def stepData (l : List StepAnalytics) : List StepAcc :=
  l.foldl insertEvent []

/-- The final `.map` of `getStepStats`, producing a `StepStats` row. -/
def mkStats (a : StepAcc) : StepStats :=
  ⟨a.stepNumber, a.stepName, a.entrances, a.exits,
    if a.timeSpentCount > 0 then a.totalTimeSpent / (a.timeSpentCount : ℚ) else 0,
    if a.entrances > 0 then ((a.exits : ℚ) / (a.entrances : ℚ)) * 100 else 0⟩

/-- Comparison relation of the final `.sort((a, b) => a.stepNumber - b.stepNumber)`. -/
def stepLE (a b : StepStats) : Prop :=
  a.stepNumber ≤ b.stepNumber

instance : DecidableRel stepLE :=
  fun a b => inferInstanceAs (Decidable (a.stepNumber ≤ b.stepNumber))

instance : IsTotal StepStats stepLE :=
  ⟨fun a b => Int.le_total a.stepNumber b.stepNumber⟩

instance : IsTrans StepStats stepLE :=
  ⟨fun _ _ _ h1 h2 => le_trans h1 h2⟩

/-- The aggregation pass of `AnalyticsQueries.getStepStats`, applied to the
fetched list of step events.  The step keys in `stepData` are pairwise
distinct, so any comparison sort realises the JS `sort`. -/
def getStepStats (l : List StepAnalytics) : List StepStats :=
  List.insertionSort stepLE ((stepData l).map mkStats)

/-- Number of events of `l` for step `s` with action `enter`. -/
def countEnter (l : List StepAnalytics) (s : Int) : Nat :=
  l.countP (fun e => decide (e.step = s ∧ e.action = Action.enter))

/-- Number of events of `l` for step `s` with action `exit`. -/
def countExit (l : List StepAnalytics) (s : Int) : Nat :=
  l.countP (fun e => decide (e.step = s ∧ e.action = Action.exit))

/-- Number of events of `l` for step `s` whose `timeSpent` is truthy. -/
def countTime (l : List StepAnalytics) (s : Int) : Nat :=
  l.countP (fun e => decide (e.step = s) && tsTruthy e.timeSpent)

/-- Sum of the truthy `timeSpent` values of `l` for step `s`. -/
def sumTime (l : List StepAnalytics) (s : Int) : ℚ :=
  ((l.filter (fun e => decide (e.step = s) && tsTruthy e.timeSpent)).map
    (fun e => tsVal e.timeSpent)).sum

/-- Invariant tying the accumulated `stepData` collection to the processed
prefix of the event list: step keys are distinct, a key is present exactly
when some processed event carries it, and every accumulator holds the running
entrance / exit / truthy-time tallies of its step. -/
def stepDataInv (l : List StepAnalytics) (acc : List StepAcc) : Prop :=
  (acc.map StepAcc.stepNumber).Nodup ∧
  (∀ s : Int, (∃ e ∈ l, e.step = s) ↔ s ∈ acc.map StepAcc.stepNumber) ∧
  (∀ a ∈ acc,
    a.entrances = countEnter l a.stepNumber ∧
    a.exits = countExit l a.stepNumber ∧
    a.totalTimeSpent = sumTime l a.stepNumber ∧
    a.timeSpentCount = countTime l a.stepNumber)


/-- A two-event demo list for step 0: one `enter` without `timeSpent`, one
`exit` with `timeSpent = 4` (used to instantiate the step-stats claim). -/
def demoEvents : List StepAnalytics :=
  [⟨"s", 0, "Step 0", Action.enter, none, none, none⟩,
   ⟨"s", 0, "Step 0", Action.exit, none, some 4, none⟩]

/-- The statistics row `getStepStats` produces for `demoEvents`. -/
def demoStats : StepStats :=
  ⟨0, "Step 0", 1, 1, 4, 100⟩

/-! ### Presentation Layer : duration sort (admin/sessions/page.tsx)

`filterAndSortSessions` sorts the filtered array with a comparator; for
`sortBy === 'duration'` the comparison is `(a.timeSpent || 0) - (b.timeSpent
|| 0)`, negated when `sortOrder === 'desc'`.  ECMAScript's `Array.prototype.
sort` is stable, so the sort denotes the unique stable reordering consistent
with the comparator; stable insertion of each element in turn realises it. -/

/-- Sort direction toggle. -/
inductive SortOrder where
  | asc
  | desc
deriving DecidableEq

/-- `(a.timeSpent || 0)`: the duration key of a session. -/
def durationOf (s : UserSession) : ℚ :=
  s.timeSpent.getD 0

/-- The `duration` comparator value before the direction toggle. -/
def durationComparison (a b : UserSession) : ℚ :=
  durationOf a - durationOf b

/-- Does the comparator order `a` strictly before `b`?  (`comparator < 0`.) -/
def sessionBefore (ord : SortOrder) (a b : UserSession) : Bool :=
  decide ((if ord = SortOrder.desc then -durationComparison a b
           else durationComparison a b) < 0)

/-- Stable insertion of `x` into a run of already-placed elements: `x` moves
past every element it is not strictly before, so ties keep their original
relative order. -/
def stableInsert (lt : UserSession → UserSession → Bool) (x : UserSession) :
    List UserSession → List UserSession
  | [] => [x]
  | y :: ys => if lt x y then x :: y :: ys else y :: stableInsert lt x ys

/-- The stable sort of the session list under a strict comparator. -/
def stableSort (lt : UserSession → UserSession → Bool)
    (l : List UserSession) : List UserSession :=
  l.foldl (fun acc x => stableInsert lt x acc) []

/-- The `sortBy === 'duration'` branch of `filterAndSortSessions`. -/
def sortSessionsByDuration (ord : SortOrder) (l : List UserSession) :
    List UserSession :=
  stableSort (sessionBefore ord) l

/-- The non-strict order a stable sort under strict comparator `lt`
establishes: `a` precedes `b` when `b` is not strictly before `a`. -/
def leOf (lt : UserSession → UserSession → Bool) (a b : UserSession) : Prop :=
  lt b a = false

/-- Strict ascending order on the duration key. -/
def durLT (a b : UserSession) : Prop :=
  durationOf a < durationOf b

instance : IsAntisymm UserSession durLT :=
  ⟨fun a b h1 h2 => absurd h2 (not_lt.mpr (le_of_lt h1))⟩

/-- Sample session with duration 5 (used to instantiate the sorting claims). -/
def sampleSessionA : UserSession :=
  ⟨"session-a", "2024-01-01T00:00:00Z", "Mozilla/5.0", some 1, [], some 5, none⟩

/-- Sample session with the same duration 5 but a different identifier. -/
def sampleSessionB : UserSession :=
  ⟨"session-b", "2024-01-01T00:01:00Z", "Mozilla/5.0", some 2, [], some 5,
    some ExitReason.completed⟩

/-- Sample session with duration 3. -/
def sampleSessionC : UserSession :=
  ⟨"session-c", "2024-01-01T00:02:00Z", "Mozilla/5.0", some 0, [], some 3,
    some ExitReason.abandoned⟩

/-! ## Theorems -/

/-- Claim C2: `getAnalyticsSummary` applied to an empty session list returns a
summary whose `totalSessions`, `completedSessions`, `abandonedSessions`,
`averageTimeSpent` and `conversionRate` are all `0` and whose `dropOffByStep`
mapping is empty; the function is total, so no division error occurs. -/
theorem c2_summary_empty :
    getAnalyticsSummary [] =
      { totalSessions := 0, completedSessions := 0, abandonedSessions := 0,
        averageTimeSpent := 0, conversionRate := 0, dropOffByStep := [] } := by
  rfl

/-- Claim C5: every Session Recorder operation (`initializeSession`,
`trackStepEnter`, `trackStepAnswer`, `trackStepExit`, `updateFormData`)
returns normally (`Except.ok`) for every state and every outcome of the
underlying store writes, including when every write fails. -/
theorem c5_recorder_never_throws :
    (∀ st w, (initializeSession st w).isOk = true) ∧
    (∀ st step stepName now w,
        (trackStepEnter st step stepName now w).isOk = true) ∧
    (∀ st step stepName answer now w,
        (trackStepAnswer st step stepName answer now w).isOk = true) ∧
    (∀ st step stepName reason now w1 w2,
        (trackStepExit st step stepName reason now w1 w2).isOk = true) ∧
    (∀ st formData w, (updateFormData st formData w).isOk = true) := by
  refine ⟨fun st w => ?_, fun st step stepName now w => ?_,
    fun st step stepName answer now w => ?_,
    fun st step stepName reason now w1 w2 => ?_, fun st formData w => ?_⟩
  · cases w <;> rfl
  · cases w <;> rfl
  · cases w <;> rfl
  · rcases st with ⟨sid, t0, t1, cs, docId⟩
    cases docId <;> cases w1 <;> cases w2 <;> rfl
  · rcases st with ⟨sid, t0, t1, cs, docId⟩
    cases docId <;> cases w <;> rfl

/-- Claim C6: `getConversionRate completed total` is `0` when `total = 0` and
`completed / total * 100` otherwise; in particular `getConversionRate 0 0 = 0`
and `getConversionRate 5 10 = 50`. -/
theorem c6_conversion_rate :
    (∀ completed total : ℚ,
        getConversionRate completed total =
          if total = 0 then 0 else completed / total * 100) ∧
    getConversionRate 0 0 = 0 ∧ getConversionRate 5 10 = 50 := by
  refine ⟨fun completed total => rfl, by simp [getConversionRate], ?_⟩
  norm_num [getConversionRate]

/-- Claim C7: `getDropOffRate exits entrances` is `0` when `entrances = 0` and
`exits / entrances * 100` otherwise, for all rational inputs. -/
theorem c7_drop_off_rate :
    ∀ exits entrances : ℚ,
      getDropOffRate exits entrances =
        if entrances = 0 then 0 else exits / entrances * 100 :=
  fun _ _ => rfl

/-- Claim C8: `formatTime` renders whole seconds as seconds alone below one
minute, as minutes and seconds below one hour, and as hours and minutes
(dropping leftover seconds) from one hour on; in particular
`formatTime 45 = "45s"`, `formatTime 125 = "2m 5s"`, `formatTime 3725 = "1h 2m"`. -/
theorem c8_format_time :
    (∀ n : Nat, formatTime n =
        if n < 60 then toString n ++ "s"
        else if n < 3600 then toString (n / 60) ++ "m " ++ toString (n % 60) ++ "s"
        else toString (n / 3600) ++ "h " ++ toString (n / 60 % 60) ++ "m") ∧
    formatTime 45 = "45s" ∧ formatTime 125 = "2m 5s" ∧ formatTime 3725 = "1h 2m" := by
  refine ⟨fun n => ?_, rfl, rfl, rfl⟩
  unfold formatTime
  by_cases h1 : n < 60
  · simp [h1]
  · have hm : n / 60 < 60 ↔ n < 3600 := by omega
    by_cases h2 : n < 3600
    · simp [h1, h2, hm.mpr h2]
    · have h3 : ¬ n / 60 < 60 := by omega
      have h4 : n / 60 / 60 = n / 3600 := by omega
      simp [h1, h2, h3, h4]

/-- Claim C3: for a non-empty data array, the CSV text built by `exportToCSV`
starts with the header row formed by joining the first row's keys with
commas; every string cell containing a comma or a double quote is rendered
wrapped in double quotes with each internal double quote doubled; and the
input corresponding to `[{a: "x,y", b: 1}]` yields exactly the text
`a,b` newline `"x,y",1`. -/
theorem c3_csv_export (first : Row) (rest : List Row) :
    (∃ body, csvContent (first :: rest) =
        some (joinSep "," (first.map Prod.fst) ++ "\n" ++ body)) ∧
    (∀ s : String,
        renderCell (some (JSValue.str s)) =
          if s.data.any (fun c => c = ',' || c = '"')
          then "\"" ++ escQuotesStr s ++ "\"" else s) ∧
    csvContent [[("a", JSValue.str "x,y"), ("b", JSValue.num 1)]] =
      some "a,b\n\"x,y\",1" := by
  refine ⟨⟨joinSep "\n" ((first :: rest).map (fun row =>
    joinSep "," ((first.map Prod.fst).map (fun header =>
      renderCell (rowLookup row header))))), rfl⟩, fun s => rfl, by decide⟩

/-- Claim C9: `exportToCSV` applied to an empty data array produces no output
at all: no CSV text is built and no download is triggered, for any filename
and date, and no error is raised (the function is total). -/
theorem c9_export_empty :
    ∀ filename today, exportToCSV [] filename today = none :=
  fun _ _ => rfl

/-- Claim C10: the two user-agent classification functions return the same
`deviceType` for every input string, namely tablet when the string matches
`iPad|Tablet`, else mobile when it matches `Mobile|Android|iPhone|iPad`, else
desktop. -/
theorem c10_device_type_agree :
    ∀ ua : String,
      (parseUserAgentAdmin ua).deviceType = (parseUserAgentSessions ua).deviceType ∧
      (parseUserAgentAdmin ua).deviceType =
        (if testTablet ua then DeviceType.tablet
         else if testMobile ua then DeviceType.mobile
         else DeviceType.desktop) :=
  fun _ => ⟨rfl, rfl⟩

/-! ### Stable sort lemmas for the duration sort -/

/-- Stable insertion permutes: the result holds exactly the inserted element
plus the old ones. -/
theorem stableInsert_perm (lt : UserSession → UserSession → Bool) (x : UserSession) :
    ∀ l : List UserSession, List.Perm (stableInsert lt x l) (x :: l)
  | [] => List.Perm.refl _
  | y :: ys => by
      by_cases h : lt x y = true
      · simp [stableInsert, h]
      · simp only [stableInsert, h, if_false]
        exact ((stableInsert_perm lt x ys).cons y).trans (List.Perm.swap x y ys)

/-- The fold of stable insertions permutes the input onto the accumulator. -/
theorem stableSortAux_perm (lt : UserSession → UserSession → Bool) :
    ∀ l acc : List UserSession,
      List.Perm (l.foldl (fun acc x => stableInsert lt x acc) acc) (l ++ acc)
  | [], acc => by simp
  | x :: l, acc => by
      simp only [List.foldl_cons, List.cons_append]
      exact (stableSortAux_perm lt l _).trans
        ((List.Perm.append_left l (stableInsert_perm lt x acc)).trans List.perm_middle)

/-- The stable sort is a permutation of its input. -/
theorem stableSort_perm (lt : UserSession → UserSession → Bool) (l : List UserSession) :
    List.Perm (stableSort lt l) l := by
  simpa using stableSortAux_perm lt l []

/-- Stable insertion preserves sortedness under the induced non-strict order,
given that the strict comparator is asymmetric and transitive. -/
theorem stableInsert_pairwise (lt : UserSession → UserSession → Bool)
    (htrans : ∀ a b c, lt a b = true → lt b c = true → lt a c = true)
    (hasym : ∀ a b, lt a b = true → lt b a = false) (x : UserSession) :
    ∀ l : List UserSession, l.Pairwise (leOf lt) →
      (stableInsert lt x l).Pairwise (leOf lt)
  | [], _ => by simp [stableInsert, leOf]
  | y :: ys, h => by
      rw [List.pairwise_cons] at h
      obtain ⟨hy, hys⟩ := h
      by_cases hxy : lt x y = true
      · simp only [stableInsert, hxy, if_true]
        refine List.Pairwise.cons ?_ (List.Pairwise.cons hy hys)
        intro z hz
        rcases List.mem_cons.mp hz with rfl | hz2
        · exact hasym x z hxy
        · have h1 : lt z y = false := hy z hz2
          cases hzx : lt z x with
          | false => exact hzx
          | true =>
              have h2 := htrans z x y hzx hxy
              rw [h1] at h2
              exact absurd h2 (by simp)
      · simp only [stableInsert, hxy, if_false]
        refine List.Pairwise.cons ?_ (stableInsert_pairwise lt htrans hasym x ys hys)
        intro z hz
        rcases List.mem_cons.mp ((stableInsert_perm lt x ys).mem_iff.mp hz) with rfl | hz2
        · exact Bool.eq_false_iff.mpr hxy
        · exact hy z hz2

/-- The fold of stable insertions preserves sortedness of the accumulator. -/
theorem stableSortAux_pairwise (lt : UserSession → UserSession → Bool)
    (htrans : ∀ a b c, lt a b = true → lt b c = true → lt a c = true)
    (hasym : ∀ a b, lt a b = true → lt b a = false) :
    ∀ l acc : List UserSession, acc.Pairwise (leOf lt) →
      (l.foldl (fun acc x => stableInsert lt x acc) acc).Pairwise (leOf lt)
  | [], _, h => h
  | x :: l, acc, h => by
      simp only [List.foldl_cons]
      exact stableSortAux_pairwise lt htrans hasym l _
        (stableInsert_pairwise lt htrans hasym x acc h)

/-- The stable sort is sorted under the induced non-strict order. -/
theorem stableSort_pairwise (lt : UserSession → UserSession → Bool)
    (htrans : ∀ a b c, lt a b = true → lt b c = true → lt a c = true)
    (hasym : ∀ a b, lt a b = true → lt b a = false) (l : List UserSession) :
    (stableSort lt l).Pairwise (leOf lt) :=
  stableSortAux_pairwise lt htrans hasym l [] List.Pairwise.nil

/-- The ascending duration comparator orders by strictly smaller duration. -/
theorem sessionBefore_asc_iff (a b : UserSession) :
    sessionBefore SortOrder.asc a b = true ↔ durationOf a < durationOf b := by
  simp [sessionBefore, durationComparison, sub_neg]

/-- The descending duration comparator orders by strictly larger duration. -/
theorem sessionBefore_desc_iff (a b : UserSession) :
    sessionBefore SortOrder.desc a b = true ↔ durationOf b < durationOf a := by
  simp [sessionBefore, durationComparison, neg_sub, sub_neg]

/-- Claim C4 (counterexample): on two sessions with equal durations, because
the sort is stable the descending result keeps the original order and is not
the reverse of the ascending result. -/
theorem c4_counterexample :
    sortSessionsByDuration SortOrder.desc [sampleSessionA, sampleSessionB] ≠
      (sortSessionsByDuration SortOrder.asc [sampleSessionA, sampleSessionB]).reverse := by
  have hdesc : sortSessionsByDuration SortOrder.desc [sampleSessionA, sampleSessionB] =
      [sampleSessionA, sampleSessionB] := by
    norm_num [sortSessionsByDuration, stableSort, stableInsert, sessionBefore,
      durationComparison, durationOf, sampleSessionA, sampleSessionB]
  have hasc : sortSessionsByDuration SortOrder.asc [sampleSessionA, sampleSessionB] =
      [sampleSessionA, sampleSessionB] := by
    norm_num [sortSessionsByDuration, stableSort, stableInsert, sessionBefore,
      durationComparison, durationOf, sampleSessionA, sampleSessionB]
  rw [hdesc, hasc]
  decide

/-- Claim C4 (amended): for a fixed session list whose duration keys are
pairwise distinct, sorting by duration descending yields exactly the reverse
of the ascending result. -/
theorem c4_duration_sort_distinct (l : List UserSession)
    (hd : l.Pairwise (fun a b => durationOf a ≠ durationOf b)) :
    sortSessionsByDuration SortOrder.desc l =
      (sortSessionsByDuration SortOrder.asc l).reverse := by
  have htransA : ∀ a b c : UserSession, sessionBefore SortOrder.asc a b = true →
      sessionBefore SortOrder.asc b c = true → sessionBefore SortOrder.asc a c = true := by
    intro a b c h1 h2
    rw [sessionBefore_asc_iff] at h1 h2 ⊢
    exact lt_trans h1 h2
  have hasymA : ∀ a b : UserSession, sessionBefore SortOrder.asc a b = true →
      sessionBefore SortOrder.asc b a = false := by
    intro a b h
    rw [sessionBefore_asc_iff] at h
    rw [← Bool.not_eq_true, sessionBefore_asc_iff]
    exact not_lt.mpr (le_of_lt h)
  have htransD : ∀ a b c : UserSession, sessionBefore SortOrder.desc a b = true →
      sessionBefore SortOrder.desc b c = true → sessionBefore SortOrder.desc a c = true := by
    intro a b c h1 h2
    rw [sessionBefore_desc_iff] at h1 h2 ⊢
    exact lt_trans h2 h1
  have hasymD : ∀ a b : UserSession, sessionBefore SortOrder.desc a b = true →
      sessionBefore SortOrder.desc b a = false := by
    intro a b h
    rw [sessionBefore_desc_iff] at h
    rw [← Bool.not_eq_true, sessionBefore_desc_iff]
    exact not_lt.mpr (le_of_lt h)
  have hpermA : List.Perm (sortSessionsByDuration SortOrder.asc l) l := stableSort_perm _ l
  have hpermD : List.Perm (sortSessionsByDuration SortOrder.desc l) l := stableSort_perm _ l
  have hsortA := stableSort_pairwise _ htransA hasymA l
  have hsortD := stableSort_pairwise _ htransD hasymD l
  have hdA : (sortSessionsByDuration SortOrder.asc l).Pairwise
      (fun a b => durationOf a ≠ durationOf b) :=
    (hpermA.pairwise_iff (fun h => Ne.symm h)).mpr hd
  have hdD : (sortSessionsByDuration SortOrder.desc l).Pairwise
      (fun a b => durationOf a ≠ durationOf b) :=
    (hpermD.pairwise_iff (fun h => Ne.symm h)).mpr hd
  have hstrictA : (sortSessionsByDuration SortOrder.asc l).Pairwise durLT :=
    List.Pairwise.imp₂ (fun a b h1 h2 =>
      lt_of_le_of_ne (not_lt.mp (fun hlt =>
        (Bool.eq_false_iff.mp h1) ((sessionBefore_asc_iff b a).mpr hlt))) h2) hsortA hdA
  have hstrictD : (sortSessionsByDuration SortOrder.desc l).Pairwise
      (fun a b => durLT b a) :=
    List.Pairwise.imp₂ (fun a b h1 h2 =>
      lt_of_le_of_ne (not_lt.mp (fun hlt =>
        (Bool.eq_false_iff.mp h1) ((sessionBefore_desc_iff b a).mpr hlt))) (Ne.symm h2))
      hsortD hdD
  have hrev : (sortSessionsByDuration SortOrder.desc l).reverse.Pairwise durLT :=
    List.pairwise_reverse.mpr hstrictD
  have hperm : List.Perm (sortSessionsByDuration SortOrder.desc l).reverse
      (sortSessionsByDuration SortOrder.asc l) :=
    ((List.reverse_perm _).trans hpermD).trans hpermA.symm
  have hfinal := List.eq_of_perm_of_sorted hperm hrev hstrictA
  calc sortSessionsByDuration SortOrder.desc l
      = (sortSessionsByDuration SortOrder.desc l).reverse.reverse :=
        (List.reverse_reverse _).symm
    _ = (sortSessionsByDuration SortOrder.asc l).reverse := by rw [hfinal]

/-- Witness for the amended claim C4 at two sessions with distinct durations. -/
theorem c4_duration_sort_distinct_witness :
    ([sampleSessionA, sampleSessionC] : List UserSession).Pairwise
        (fun a b => durationOf a ≠ durationOf b) ∧
    sortSessionsByDuration SortOrder.desc [sampleSessionA, sampleSessionC] =
      (sortSessionsByDuration SortOrder.asc [sampleSessionA, sampleSessionC]).reverse :=
  ⟨by decide, c4_duration_sort_distinct _ (by decide)⟩

/-! ### getStepStats invariants -/

/-- `updateAcc` never changes the accumulator's step key. -/
theorem updateAcc_stepNumber (a : StepAcc) (e : StepAnalytics) :
    (updateAcc a e).stepNumber = a.stepNumber := by
  unfold updateAcc
  cases e.action <;> by_cases h : tsTruthy e.timeSpent <;> simp [h]

/-- `updateAcc` bumps the entrance tally exactly on `enter` events. -/
theorem updateAcc_entrances (a : StepAcc) (e : StepAnalytics) :
    (updateAcc a e).entrances =
      a.entrances + (if e.action = Action.enter then 1 else 0) := by
  unfold updateAcc
  cases e.action <;> by_cases h : tsTruthy e.timeSpent <;> simp [h]

/-- `updateAcc` bumps the exit tally exactly on `exit` events. -/
theorem updateAcc_exits (a : StepAcc) (e : StepAnalytics) :
    (updateAcc a e).exits =
      a.exits + (if e.action = Action.exit then 1 else 0) := by
  unfold updateAcc
  cases e.action <;> by_cases h : tsTruthy e.timeSpent <;> simp [h]

/-- `updateAcc` adds exactly the truthy `timeSpent` values. -/
theorem updateAcc_total (a : StepAcc) (e : StepAnalytics) :
    (updateAcc a e).totalTimeSpent =
      a.totalTimeSpent + (if tsTruthy e.timeSpent then tsVal e.timeSpent else 0) := by
  unfold updateAcc
  cases e.action <;> by_cases h : tsTruthy e.timeSpent <;> simp [h]

/-- `updateAcc` counts exactly the truthy `timeSpent` values. -/
theorem updateAcc_count (a : StepAcc) (e : StepAnalytics) :
    (updateAcc a e).timeSpentCount =
      a.timeSpentCount + (if tsTruthy e.timeSpent then 1 else 0) := by
  unfold updateAcc
  cases e.action <;> by_cases h : tsTruthy e.timeSpent <;> simp [h]

/-- `insertEvent` keeps the key list, appending the event's step exactly when
it is new. -/
theorem insertEvent_keys (e : StepAnalytics) :
    ∀ acc : List StepAcc,
      (insertEvent acc e).map StepAcc.stepNumber =
        if e.step ∈ acc.map StepAcc.stepNumber then acc.map StepAcc.stepNumber
        else acc.map StepAcc.stepNumber ++ [e.step]
  | [] => by simp [insertEvent, updateAcc_stepNumber, initAcc]
  | a :: rest => by
      by_cases h : a.stepNumber = e.step
      · simp only [insertEvent, if_pos h, List.map_cons, updateAcc_stepNumber]
        rw [if_pos (List.mem_cons.mpr (Or.inl h.symm))]
      · simp only [insertEvent, if_neg h, List.map_cons]
        rw [insertEvent_keys e rest]
        by_cases h2 : e.step ∈ rest.map StepAcc.stepNumber
        · rw [if_pos h2, if_pos (List.mem_cons.mpr (Or.inr h2))]
        · have hne : e.step ∉ a.stepNumber :: rest.map StepAcc.stepNumber := by
            intro hc
            rcases List.mem_cons.mp hc with hc1 | hc2
            · exact h hc1.symm
            · exact h2 hc2
          rw [if_neg h2, if_neg hne, List.cons_append]

/-- Appending one event changes the enter tally of a step by its indicator. -/
theorem countEnter_append (l : List StepAnalytics) (e : StepAnalytics) (s : Int) :
    countEnter (l ++ [e]) s =
      countEnter l s + (if e.step = s ∧ e.action = Action.enter then 1 else 0) := by
  simp [countEnter, List.countP_append, List.countP_cons]

/-- Appending one event changes the exit tally of a step by its indicator. -/
theorem countExit_append (l : List StepAnalytics) (e : StepAnalytics) (s : Int) :
    countExit (l ++ [e]) s =
      countExit l s + (if e.step = s ∧ e.action = Action.exit then 1 else 0) := by
  simp [countExit, List.countP_append, List.countP_cons]

/-- Appending one event changes the truthy-time tally of a step by its
indicator. -/
theorem countTime_append (l : List StepAnalytics) (e : StepAnalytics) (s : Int) :
    countTime (l ++ [e]) s =
      countTime l s + (if e.step = s ∧ tsTruthy e.timeSpent = true then 1 else 0) := by
  simp [countTime, List.countP_append, List.countP_cons]

/-- Appending one event adds its truthy `timeSpent` contribution to the sum. -/
theorem sumTime_append (l : List StepAnalytics) (e : StepAnalytics) (s : Int) :
    sumTime (l ++ [e]) s =
      sumTime l s + (if e.step = s ∧ tsTruthy e.timeSpent = true
        then tsVal e.timeSpent else 0) := by
  unfold sumTime
  rw [List.filter_append]
  by_cases h : e.step = s ∧ tsTruthy e.timeSpent = true
  · simp [List.filter_cons, h.1, h.2, h]
  · simp only [not_and_or] at h
    rcases h with h | h
    · simp [List.filter_cons, h]
    · simp only [Bool.not_eq_true] at h
      simp [List.filter_cons, h]

/-- A step with no event has a zero enter tally. -/
theorem countEnter_eq_zero (l : List StepAnalytics) (s : Int)
    (h : ∀ e ∈ l, e.step ≠ s) : countEnter l s = 0 := by
  unfold countEnter
  rw [List.countP_eq_zero]
  intro e he
  simp [h e he]

/-- A step with no event has a zero exit tally. -/
theorem countExit_eq_zero (l : List StepAnalytics) (s : Int)
    (h : ∀ e ∈ l, e.step ≠ s) : countExit l s = 0 := by
  unfold countExit
  rw [List.countP_eq_zero]
  intro e he
  simp [h e he]

/-- A step with no event has a zero truthy-time tally. -/
theorem countTime_eq_zero (l : List StepAnalytics) (s : Int)
    (h : ∀ e ∈ l, e.step ≠ s) : countTime l s = 0 := by
  unfold countTime
  rw [List.countP_eq_zero]
  intro e he
  simp [h e he]

/-- A step with no event has a zero time sum. -/
theorem sumTime_eq_zero (l : List StepAnalytics) (s : Int)
    (h : ∀ e ∈ l, e.step ≠ s) : sumTime l s = 0 := by
  have hf : l.filter (fun e => decide (e.step = s) && tsTruthy e.timeSpent) = [] := by
    rw [List.filter_eq_nil_iff]
    intro e he
    simp [h e he]
  simp [sumTime, hf]

/-- Membership in `insertEvent acc e`: either the matching accumulator was
updated in place, or an unrelated accumulator was kept, or a new accumulator
for a fresh step key was appended. -/
theorem mem_insertEvent (e : StepAnalytics) :
    ∀ acc : List StepAcc, (acc.map StepAcc.stepNumber).Nodup →
      ∀ a' ∈ insertEvent acc e,
        (∃ a ∈ acc, a.stepNumber = e.step ∧ a' = updateAcc a e) ∨
        (a' ∈ acc ∧ a'.stepNumber ≠ e.step) ∨
        (a' = updateAcc (initAcc e) e ∧ e.step ∉ acc.map StepAcc.stepNumber) := by
  intro acc
  induction acc with
  | nil =>
      intro _ a' ha'
      refine Or.inr (Or.inr ⟨?_, by simp⟩)
      simpa [insertEvent] using ha'
  | cons a rest ih =>
      intro hnd a' ha'
      rw [List.map_cons, List.nodup_cons] at hnd
      obtain ⟨hnot, hndr⟩ := hnd
      by_cases h : a.stepNumber = e.step
      · simp only [insertEvent, if_pos h] at ha'
        rcases List.mem_cons.mp ha' with rfl | hmem
        · exact Or.inl ⟨a, List.mem_cons_self a rest, h, rfl⟩
        · refine Or.inr (Or.inl ⟨List.mem_cons.mpr (Or.inr hmem), ?_⟩)
          intro hc
          apply hnot
          have hm : a'.stepNumber ∈ rest.map StepAcc.stepNumber :=
            List.mem_map_of_mem _ hmem
          rwa [hc, ← h] at hm
      · simp only [insertEvent, if_neg h] at ha'
        rcases List.mem_cons.mp ha' with rfl | hmem
        · exact Or.inr (Or.inl ⟨List.mem_cons_self _ _, h⟩)
        · rcases ih hndr a' hmem with ⟨b, hb, hkey, heq⟩ | ⟨hmem2, hne⟩ | ⟨heq, hnm⟩
          · exact Or.inl ⟨b, List.mem_cons.mpr (Or.inr hb), hkey, heq⟩
          · exact Or.inr (Or.inl ⟨List.mem_cons.mpr (Or.inr hmem2), hne⟩)
          · refine Or.inr (Or.inr ⟨heq, ?_⟩)
            rw [List.map_cons]
            intro hc
            rcases List.mem_cons.mp hc with hc1 | hc2
            · exact h hc1.symm
            · exact hnm hc2

/-- Processing one more event preserves the `stepData` invariant. -/
theorem insertEvent_inv (l : List StepAnalytics) (e : StepAnalytics)
    (acc : List StepAcc) (h : stepDataInv l acc) :
    stepDataInv (l ++ [e]) (insertEvent acc e) := by
  obtain ⟨hnd, hiff, hcounts⟩ := h
  refine ⟨?_, ?_, ?_⟩
  · rw [insertEvent_keys]
    by_cases h2 : e.step ∈ acc.map StepAcc.stepNumber
    · rw [if_pos h2]
      exact hnd
    · rw [if_neg h2]
      exact ((List.perm_append_singleton _ _).nodup_iff).mpr
        (List.nodup_cons.mpr ⟨h2, hnd⟩)
  · intro s
    rw [insertEvent_keys]
    by_cases h2 : e.step ∈ acc.map StepAcc.stepNumber
    · rw [if_pos h2]
      constructor
      · rintro ⟨e', he', hs⟩
        rcases List.mem_append.mp he' with h3 | h3
        · exact (hiff s).mp ⟨e', h3, hs⟩
        · have he : e' = e := List.mem_singleton.mp h3
          subst he
          exact hs ▸ h2
      · intro hmem
        obtain ⟨e', he', hs⟩ := (hiff s).mpr hmem
        exact ⟨e', List.mem_append_left _ he', hs⟩
    · rw [if_neg h2, List.mem_append, List.mem_singleton]
      constructor
      · rintro ⟨e', he', hs⟩
        rcases List.mem_append.mp he' with h3 | h3
        · exact Or.inl ((hiff s).mp ⟨e', h3, hs⟩)
        · have he : e' = e := List.mem_singleton.mp h3
          subst he
          exact Or.inr hs.symm
      · rintro (hmem | rfl)
        · obtain ⟨e', he', hs⟩ := (hiff s).mpr hmem
          exact ⟨e', List.mem_append_left _ he', hs⟩
        · exact ⟨e, List.mem_append_right _ (List.mem_singleton_self e), rfl⟩
  · intro a' ha'
    rcases mem_insertEvent e acc hnd a' ha' with
      ⟨a, ha, hkey, heq⟩ | ⟨hmem, hne⟩ | ⟨heq, hnm⟩
    · subst heq
      obtain ⟨h1, h2, h3, h4⟩ := hcounts a ha
      refine ⟨?_, ?_, ?_, ?_⟩
      · rw [updateAcc_entrances, updateAcc_stepNumber, h1, countEnter_append]
        simp [hkey]
      · rw [updateAcc_exits, updateAcc_stepNumber, h2, countExit_append]
        simp [hkey]
      · rw [updateAcc_total, updateAcc_stepNumber, h3, sumTime_append]
        simp [hkey]
      · rw [updateAcc_count, updateAcc_stepNumber, h4, countTime_append]
        simp [hkey]
    · obtain ⟨h1, h2, h3, h4⟩ := hcounts a' hmem
      have hne2 : ¬ (e.step = a'.stepNumber) := fun hc => hne hc.symm
      refine ⟨?_, ?_, ?_, ?_⟩
      · rw [countEnter_append, h1]
        simp [hne2]
      · rw [countExit_append, h2]
        simp [hne2]
      · rw [sumTime_append, h3]
        simp [hne2]
      · rw [countTime_append, h4]
        simp [hne2]
    · subst heq
      have hnoev : ∀ e' ∈ l, e'.step ≠ e.step := by
        intro e' he' hc
        exact hnm ((hiff e.step).mp ⟨e', he', hc⟩)
      refine ⟨?_, ?_, ?_, ?_⟩
      · rw [updateAcc_entrances, updateAcc_stepNumber, countEnter_append]
        simp [initAcc, countEnter_eq_zero l e.step hnoev]
      · rw [updateAcc_exits, updateAcc_stepNumber, countExit_append]
        simp [initAcc, countExit_eq_zero l e.step hnoev]
      · rw [updateAcc_total, updateAcc_stepNumber, sumTime_append]
        simp [initAcc, sumTime_eq_zero l e.step hnoev]
      · rw [updateAcc_count, updateAcc_stepNumber, countTime_append]
        simp [initAcc, countTime_eq_zero l e.step hnoev]

/-- The accumulated `stepData` satisfies the invariant for the whole list. -/
theorem stepData_inv (l : List StepAnalytics) : stepDataInv l (stepData l) := by
  induction l using List.reverseRecOn with
  | nil =>
      refine ⟨List.nodup_nil, ?_, ?_⟩
      · intro s
        simp [stepData]
      · intro a ha
        simp [stepData] at ha
  | append_singleton l e ih =>
      have hfold : stepData (l ++ [e]) = insertEvent (stepData l) e := by
        simp [stepData, List.foldl_append]
      rw [hfold]
      exact insertEvent_inv l e (stepData l) ih

/-- Claim C1 (amended): for every event list, each row of `getStepStats` for a
step with N `enter` events and M `exit` events has `dropOffRate = M/N*100`
(0 when N = 0) and `averageTimeSpent` equal to the arithmetic mean of the
truthy (present and nonzero) `timeSpent` values on events for that step
(0 when there are none); a row exists for every step occurring in the list,
and the result is sorted strictly ascending by step index. -/
theorem c1_step_stats (l : List StepAnalytics) (s : Int) (a : StepStats)
    (ha : a ∈ getStepStats l) (hs : a.stepNumber = s) :
    (a.entrances = countEnter l s ∧
     a.exits = countExit l s ∧
     a.dropOffRate = (if countEnter l s = 0 then 0
        else (countExit l s : ℚ) / (countEnter l s : ℚ) * 100) ∧
     a.averageTimeSpent = (if countTime l s = 0 then 0
        else sumTime l s / (countTime l s : ℚ))) ∧
    ((∃ e ∈ l, e.step = s) → ∃ b ∈ getStepStats l, b.stepNumber = s) ∧
    (getStepStats l).Pairwise (fun x y => x.stepNumber < y.stepNumber) := by
  obtain ⟨hnd, hiff, hcounts⟩ := stepData_inv l
  have hperm : List.Perm (getStepStats l) ((stepData l).map mkStats) :=
    List.perm_insertionSort stepLE _
  refine ⟨?_, ?_, ?_⟩
  · have hmem : a ∈ (stepData l).map mkStats := hperm.mem_iff.mp ha
    obtain ⟨b, hb, rfl⟩ := List.mem_map.mp hmem
    have hbs : b.stepNumber = s := hs
    subst hbs
    obtain ⟨h1, h2, h3, h4⟩ := hcounts b hb
    refine ⟨by simpa [mkStats] using h1, by simpa [mkStats] using h2, ?_, ?_⟩
    · simp only [mkStats]
      rw [h1, h2]
      by_cases hz : countEnter l b.stepNumber = 0
      · simp [hz]
      · simp [hz, Nat.pos_of_ne_zero hz]
    · simp only [mkStats]
      rw [h3, h4]
      by_cases hz : countTime l b.stepNumber = 0
      · simp [hz]
      · simp [hz, Nat.pos_of_ne_zero hz]
  · rintro ⟨e', he', hstep⟩
    have hsmem : s ∈ (stepData l).map StepAcc.stepNumber :=
      (hiff s).mp ⟨e', he', hstep⟩
    obtain ⟨b, hb, hbs⟩ := List.mem_map.mp hsmem
    refine ⟨mkStats b, ?_, ?_⟩
    · exact hperm.mem_iff.mpr (List.mem_map_of_mem _ hb)
    · simpa [mkStats] using hbs
  · have hkeys : ((stepData l).map mkStats).map StepStats.stepNumber =
        (stepData l).map StepAcc.stepNumber := by
      rw [List.map_map]
      rfl
    have hnd2 : (((stepData l).map mkStats).map StepStats.stepNumber).Nodup := by
      rw [hkeys]
      exact hnd
    have hndSorted : ((getStepStats l).map StepStats.stepNumber).Nodup :=
      ((hperm.map StepStats.stepNumber).nodup_iff).mpr hnd2
    have hpw_ne : (getStepStats l).Pairwise
        (fun x y => x.stepNumber ≠ y.stepNumber) :=
      List.pairwise_map.mp hndSorted
    have hpw_le : (getStepStats l).Pairwise stepLE :=
      List.sorted_insertionSort stepLE ((stepData l).map mkStats)
    exact List.Pairwise.imp₂ (fun x y hle hne => lt_of_le_of_ne hle hne) hpw_le hpw_ne

/-- Claim C1 (counterexample): two `enter` events for step 0 carry `timeSpent`
values 0 and 10; both values are present on events for that step, so the
claimed mean is (0 + 10) / 2 = 5, but the code's truthiness test skips the 0
and reports an average of 10. -/
theorem c1_counterexample :
    (getStepStats
        [⟨"s", 0, "Step 0", Action.enter, none, some 0, none⟩,
         ⟨"s", 0, "Step 0", Action.enter, none, some 10, none⟩]).map
      StepStats.averageTimeSpent = [10] ∧
    ((0 : ℚ) + 10) / 2 ≠ 10 := by
  constructor
  · norm_num [getStepStats, stepData, insertEvent, initAcc, updateAcc, tsTruthy,
      tsVal, mkStats, List.insertionSort, List.orderedInsert]
  · norm_num

/-- Witness for the amended claim C1 at a concrete two-event list. -/
theorem c1_step_stats_witness :
    (demoStats ∈ getStepStats demoEvents ∧ demoStats.stepNumber = 0) ∧
    ((demoStats.entrances = countEnter demoEvents 0 ∧
      demoStats.exits = countExit demoEvents 0 ∧
      demoStats.dropOffRate = (if countEnter demoEvents 0 = 0 then 0
        else (countExit demoEvents 0 : ℚ) / (countEnter demoEvents 0 : ℚ) * 100) ∧
      demoStats.averageTimeSpent = (if countTime demoEvents 0 = 0 then 0
        else sumTime demoEvents 0 / (countTime demoEvents 0 : ℚ))) ∧
     ((∃ e ∈ demoEvents, e.step = 0) →
        ∃ b ∈ getStepStats demoEvents, b.stepNumber = 0) ∧
     (getStepStats demoEvents).Pairwise
        (fun x y => x.stepNumber < y.stepNumber)) := by
  have hne1 : ¬ (Action.exit = Action.enter) := by decide
  have hmem : demoStats ∈ getStepStats demoEvents := by
    norm_num [demoStats, demoEvents, getStepStats, stepData, insertEvent, initAcc,
      updateAcc, tsTruthy, tsVal, mkStats, List.insertionSort, List.orderedInsert, hne1]
  exact ⟨⟨hmem, rfl⟩, c1_step_stats demoEvents 0 demoStats hmem rfl⟩

end FormAdmin
